import Mathlib

/-!
Shallow embedding of two components of the repository:

* `creme/datasets/synth/agrawal.py` — the Agrawal synthetic stream
  generator (raw field draws, the ten classification functions, the
  class-balancing rejection loop, the perturbation step, drift injection
  and constructor validation).  Numeric values are modelled as rationals
  (`ℚ`), the pseudorandom generator as an explicit stream of draws.

* `river/tree/_tree_utils.py` — `do_naive_bayes_prediction`, the
  naive-Bayes posterior estimator with its log-sum-exp normalisation,
  modelled over the reals (`ℝ`) since it uses `math.log` / `math.exp`.
-/

/-! ### Pseudorandom generator

`numpy.random.RandomState` is modelled as two oracle streams (one of
reals for `rand()`, one of naturals for `randint(n)`) together with a
position counter; each draw consumes one position.  A generator is
`valid` when every real draw lies in `[0, 1)`; `randint n` reduces the
natural oracle modulo `n`, which matches its contract of returning a
value in `[0, n)`. -/

structure RNG where
  reals : Nat → ℚ
  nats : Nat → Nat
  pos : Nat

def RNG.valid (r : RNG) : Prop := ∀ i, 0 ≤ r.reals i ∧ r.reals i < 1

def RNG.rand (r : RNG) : ℚ × RNG :=
  (r.reals r.pos, { r with pos := r.pos + 1 })

def RNG.randint (r : RNG) (n : Nat) : Nat × RNG :=
  (r.nats r.pos % n, { r with pos := r.pos + 1 })

/-! ### Raw sample draws (`Agrawal.__iter__`, lines 128-136) -/

structure Sample where
  salary : ℚ
  commission : ℚ
  age : ℚ
  elevel : ℚ
  car : ℚ
  zipcode : ℚ
  hvalue : ℚ
  hyears : ℚ
  loan : ℚ
  deriving DecidableEq

/-- One execution of the nine raw field draws, in the source's order:
`salary`, (conditionally) `commission`, `age`, `elevel`, `car`,
`zipcode`, `hvalue`, `hyears`, `loan`.  The `commission` draw is only
consumed when `salary < 75000`, exactly as in the Python expression
`0 if (salary >= 75000) else (10000 + 75000 * self._rng.rand())`. -/
def rawDraw (r0 : RNG) : Sample × RNG :=
  let (u1, r1) := r0.rand
  let salary : ℚ := 20000 + 130000 * u1
  let cr : ℚ × RNG :=
    if salary ≥ 75000 then ((0 : ℚ), r1)
    else
      let (u2, r2) := r1.rand
      (10000 + 75000 * u2, r2)
  let commission := cr.1
  let r2 := cr.2
  let (a, r3) := r2.randint 61
  let age : ℚ := (20 + a : ℕ)
  let (e, r4) := r3.randint 5
  let elevel : ℚ := (e : ℕ)
  let (c, r5) := r4.randint 20
  let car : ℚ := (c : ℕ)
  let (z, r6) := r5.randint 9
  let zipcode : ℚ := (z : ℕ)
  let (uh, r7) := r6.rand
  let hvalue : ℚ := (9 - zipcode) * 100000 * (1/2 + uh)
  let (hy, r8) := r7.randint 30
  let hyears : ℚ := (1 + hy : ℕ)
  let (ul, r9) := r8.rand
  let loan : ℚ := ul * 500000
  (⟨salary, commission, age, elevel, car, zipcode, hvalue, hyears, loan⟩, r9)

/-! ### The ten classification functions

Each is a pure function of the nine raw values returning a label.
Python's `int(bool)` is modelled as `if _ then 1 else 0`; the stray
`or (elevel == 4)` of function 2, which makes Python return `True` or
`False` instead of `1`/`0`, is modelled by its numeric value (`True`
compares equal to `1` and `False` to `0` everywhere the label is used). -/

def classificationFunction0 (_salary _commission age _elevel _car _zipcode
    _hvalue _hyears _loan : ℚ) : ℕ :=
  if age < 40 ∨ 60 ≤ age then 1 else 0

def classificationFunction1 (salary _commission age _elevel _car _zipcode
    _hvalue _hyears _loan : ℚ) : ℕ :=
  if age < 40 then
    (if 50000 ≤ salary ∧ salary ≤ 100000 then 1 else 0)
  else if age < 60 then
    (if 75000 ≤ salary ∧ salary ≤ 125000 then 1 else 0)
  else
    (if 25000 ≤ salary ∧ salary ≤ 75000 then 1 else 0)

def classificationFunction2 (_salary _commission age elevel _car _zipcode
    _hvalue _hyears _loan : ℚ) : ℕ :=
  if age < 40 then
    (if elevel = 0 ∨ elevel = 1 then 1 else 0)
  else if age < 60 then
    (if elevel = 1 ∨ elevel = 2 ∨ elevel = 3 then 1 else 0)
  else
    (if elevel = 2 ∨ elevel = 3 then 1 else if elevel = 4 then 1 else 0)

def classificationFunction3 (salary _commission age elevel _car _zipcode
    _hvalue _hyears _loan : ℚ) : ℕ :=
  if age < 40 then
    if elevel = 0 ∨ elevel = 1 then
      (if 25000 ≤ salary ∧ salary ≤ 75000 then 1 else 0)
    else
      (if 50000 ≤ salary ∧ salary ≤ 100000 then 1 else 0)
  else if age < 60 then
    if elevel = 1 ∨ elevel = 2 ∨ elevel = 3 then
      (if 50000 ≤ salary ∧ salary ≤ 100000 then 1 else 0)
    else
      (if 75000 ≤ salary ∧ salary ≤ 125000 then 1 else 0)
  else
    if elevel = 2 ∨ elevel = 3 ∨ elevel = 4 then
      (if 50000 ≤ salary ∧ salary ≤ 100000 then 1 else 0)
    else
      (if 25000 ≤ salary ∧ salary ≤ 75000 then 1 else 0)

def classificationFunction4 (salary _commission age _elevel _car _zipcode
    _hvalue _hyears loan : ℚ) : ℕ :=
  if age < 40 then
    if 50000 ≤ salary ∧ salary ≤ 100000 then
      (if 100000 ≤ loan ∧ loan ≤ 300000 then 1 else 0)
    else
      (if 200000 ≤ salary ∧ salary ≤ 400000 then 1 else 0)
  else if age < 60 then
    if 75000 ≤ salary ∧ salary ≤ 125000 then
      (if 200000 ≤ salary ∧ loan ≤ 400000 then 1 else 0)
    else
      (if 300000 ≤ salary ∧ salary ≤ 500000 then 1 else 0)
  else
    if 25000 ≤ salary ∧ salary ≤ 75000 then
      (if 300000 ≤ loan ∧ loan ≤ 500000 then 1 else 0)
    else
      (if 75000 ≤ loan ∧ loan ≤ 300000 then 1 else 0)

def classificationFunction5 (salary commission age _elevel _car _zipcode
    _hvalue _hyears _loan : ℚ) : ℕ :=
  let totalsalary := salary + commission
  if age < 40 then
    (if 50000 ≤ totalsalary ∧ totalsalary ≤ 100000 then 1 else 0)
  else if age < 60 then
    (if 75000 ≤ totalsalary ∧ totalsalary ≤ 125000 then 1 else 0)
  else
    (if 25000 ≤ totalsalary ∧ totalsalary ≤ 75000 then 1 else 0)

def classificationFunction6 (salary commission _age _elevel _car _zipcode
    _hvalue _hyears loan : ℚ) : ℕ :=
  let disposable := 2 * (salary + commission) / 3 - loan / 5 - 20000
  if disposable > 1 then 0 else 1

def classificationFunction7 (salary commission _age elevel _car _zipcode
    _hvalue _hyears _loan : ℚ) : ℕ :=
  let disposable := 2 * (salary + commission) / 3 - 5000 * elevel - 20000
  if disposable > 1 then 0 else 1

def classificationFunction8 (salary commission _age elevel _car _zipcode
    _hvalue _hyears loan : ℚ) : ℕ :=
  let disposable := 2 * (salary + commission) / 3 - 5000 * elevel - loan / 5 - 10000
  if disposable > 1 then 0 else 1

def classificationFunction9 (salary commission _age elevel _car _zipcode
    hvalue hyears _loan : ℚ) : ℕ :=
  let equity := if hyears ≥ 20 then hvalue * (hyears - 20) / 10 else 0
  let disposable := 2 * (salary + commission) / 3 - 5000 * elevel + equity / 5 - 10000
  if disposable > 1 then 0 else 1

/-- Dispatch on the classification-function index, as the source's
`self._classification_functions` list indexed by
`self.classification_function`. -/
def classify (idx : Fin 10) (s : Sample) : ℕ :=
  match idx with
  | 0 => classificationFunction0 s.salary s.commission s.age s.elevel s.car
      s.zipcode s.hvalue s.hyears s.loan
  | 1 => classificationFunction1 s.salary s.commission s.age s.elevel s.car
      s.zipcode s.hvalue s.hyears s.loan
  | 2 => classificationFunction2 s.salary s.commission s.age s.elevel s.car
      s.zipcode s.hvalue s.hyears s.loan
  | 3 => classificationFunction3 s.salary s.commission s.age s.elevel s.car
      s.zipcode s.hvalue s.hyears s.loan
  | 4 => classificationFunction4 s.salary s.commission s.age s.elevel s.car
      s.zipcode s.hvalue s.hyears s.loan
  | 5 => classificationFunction5 s.salary s.commission s.age s.elevel s.car
      s.zipcode s.hvalue s.hyears s.loan
  | 6 => classificationFunction6 s.salary s.commission s.age s.elevel s.car
      s.zipcode s.hvalue s.hyears s.loan
  | 7 => classificationFunction7 s.salary s.commission s.age s.elevel s.car
      s.zipcode s.hvalue s.hyears s.loan
  | 8 => classificationFunction8 s.salary s.commission s.age s.elevel s.car
      s.zipcode s.hvalue s.hyears s.loan
  | 9 => classificationFunction9 s.salary s.commission s.age s.elevel s.car
      s.zipcode s.hvalue s.hyears s.loan

/-! ### Class balancing (`Agrawal.__iter__`, lines 143-149)

`acceptCheck` is the acceptance test of the rejection loop;
`balanceRun` pushes a finite prefix of candidate labels through the
loop, returning the accepted labels together with the final value of
the `_next_class_should_be_zero` toggle.  With `balance = false` the
source sets `desired_class_found = True` unconditionally and never
touches the toggle. -/

def acceptCheck (toggle : Bool) (group : ℕ) : Bool :=
  (toggle && group == 0) || (!toggle && group == 1)

def balanceRun : Bool → Bool → List ℕ → List ℕ × Bool
  | _, toggle, [] => ([], toggle)
  | balance, toggle, g :: gs =>
    if balance then
      if acceptCheck toggle g then
        let rest := balanceRun balance (!toggle) gs
        (g :: rest.1, rest.2)
      else balanceRun balance toggle gs
    else
      let rest := balanceRun balance toggle gs
      (g :: rest.1, rest.2)

/-! ### Perturbation (`Agrawal._perturb_value` and lines 152-159) -/

/-- `numpy.round`: round half to even. -/
def npRound (q : ℚ) : ℤ :=
  let f := ⌊q⌋
  let frac := q - f
  if frac < 1/2 then f
  else if 1/2 < frac then f + 1
  else if f % 2 = 0 then f else f + 1

/-- `Agrawal._perturb_value(val, val_min, val_max, val_range=None)`,
with the fresh uniform draw `u` passed explicitly. -/
def perturbValue (pert u val vmin vmax : ℚ) (vrange : Option ℚ) : ℚ :=
  let range := vrange.getD (vmax - vmin)
  let v := val + range * (2 * (u - 1/2)) * pert
  if v < vmin then vmin
  else if v > vmax then vmax
  else v

/-- The perturbation block of `__iter__` (executed when
`self.perturbation > 0.0`): noise is applied, in source order, to
`salary`, `commission` (only when positive), `age` (then `np.round`),
`hvalue` (with `val_min = (9 - zipcode) * 100000`, `val_max = 0` and
the explicit range `135000`), `hyears` (then `np.round`) and `loan`. -/
def perturbSample (pert : ℚ) (s : Sample) (r0 : RNG) : Sample × RNG :=
  let (u1, r1) := r0.rand
  let salary := perturbValue pert u1 s.salary 20000 150000 none
  let cr : ℚ × RNG :=
    if s.commission > 0 then
      let (u2, r2) := r1.rand
      (perturbValue pert u2 s.commission 10000 75000 none, r2)
    else (s.commission, r1)
  let commission := cr.1
  let r2 := cr.2
  let (u3, r3) := r2.rand
  let age : ℚ := (npRound (perturbValue pert u3 s.age 20 80 none) : ℤ)
  let (u4, r4) := r3.rand
  let hvalue := perturbValue pert u4 s.hvalue ((9 - s.zipcode) * 100000) 0 (some 135000)
  let (u5, r5) := r4.rand
  let hyears : ℚ := (npRound (perturbValue pert u5 s.hyears 1 30 none) : ℤ)
  let (u6, r6) := r5.rand
  let loan := perturbValue pert u6 s.loan 0 500000 none
  ({ s with salary := salary, commission := commission, age := age,
            hvalue := hvalue, hyears := hyears, loan := loan }, r6)

/-! ### Drift injection (`Agrawal.generate_drift`)

The source redraws `randint(10)` while the draw equals the current
index.  The loop is modelled with explicit fuel: `none` means the fuel
ran out before a differing draw appeared. -/

def generateDriftFuel : ℕ → RNG → ℕ → Option (ℕ × RNG)
  | 0, _, _ => none
  | fuel + 1, r, cur =>
    let p := r.randint 10
    if p.1 = cur then generateDriftFuel fuel p.2 cur else some p

/-! ### Constructor validation (`Agrawal.__init__`, lines 98-106) -/

inductive InitError where
  | invalidClassificationFunction
  | invalidPerturbation
  deriving DecidableEq

/-- The two constructor checks, in source order: `classification_function
not in range(10)` then `not 0.0 <= perturbation <= 1.0`. -/
def agrawalInit (cf : ℤ) (pert : ℚ) : Except InitError Unit :=
  if ¬ (0 ≤ cf ∧ cf < 10) then .error .invalidClassificationFunction
  else if ¬ (0 ≤ pert ∧ pert ≤ 1) then .error .invalidPerturbation
  else .ok ()

/-! ### Naive Bayes posterior (`river/tree/_tree_utils.py`)

The feature record `x` and the class distribution are association lists
(Python dicts iterate in insertion order); an attribute observer is its
only capability used here, the function
`probability_of_attribute_value_given_class`. -/

abbrev Obs := ℝ → ℕ → ℝ

open scoped Classical in
/-- The likelihood accumulation of the inner loop: for each observer
whose attribute index occurs in `x`, add `log tmp` when `tmp > 0` and
`0.0` otherwise.  The source's `if attribute_observers:` guard is the
fold over the empty list. -/
noncomputable def likelihoodSum (x : List (ℕ × ℝ)) (obs : List (ℕ × Obs)) (c : ℕ) : ℝ :=
  obs.foldl (fun acc p =>
    match List.lookup p.1 x with
    | none => acc
    | some v =>
      let tmp := p.2 v c
      acc + (if tmp > 0 then Real.log tmp else 0)) 0

open scoped Classical in
/-- The `votes` dict built by the outer loop of
`do_naive_bayes_prediction`: `log(w / total)` plus the accumulated
likelihood when `w > 0`, a literal `0.0` (with the `continue` skipping
the observers) otherwise. -/
noncomputable def nbVotesLoop (x : List (ℕ × ℝ)) (obs : List (ℕ × Obs)) (total : ℝ) :
    List (ℕ × ℝ) → List (ℕ × ℝ) → List (ℕ × ℝ)
  | [], acc => acc
  | (c, w) :: rest, acc =>
    if w > 0 then
      nbVotesLoop x obs total rest (acc ++ [(c, Real.log (w / total) + likelihoodSum x obs c)])
    else
      nbVotesLoop x obs total rest (acc ++ [(c, 0)])

/-- `max_ll + log (sum of exp (score - max_ll))`, the log-sum-exp step
(lines 54-59 of the source); `max_ll` is the maximum of the scores. -/
noncomputable def nbLse (votes : List (ℕ × ℝ)) : ℝ :=
  match votes with
  | [] => 0
  | v :: vs =>
    let maxLL := (vs.map Prod.snd).foldl max v.2
    maxLL + Real.log ((votes.map (fun p => Real.exp (p.2 - maxLL))).sum)

open scoped Classical in
/-- `do_naive_bayes_prediction(x, observed_class_distribution,
attribute_observers)`: `none` models the `return None` of the guard
`if not observed_class_distribution or total_weight == 0`. -/
noncomputable def do_naive_bayes_prediction (x : List (ℕ × ℝ))
    (observed_class_distribution : List (ℕ × ℝ))
    (attribute_observers : List (ℕ × Obs)) : Option (List (ℕ × ℝ)) :=
  let total_weight := (observed_class_distribution.map Prod.snd).sum
  if observed_class_distribution = [] ∨ total_weight = 0 then none
  else
    let votes := nbVotesLoop x attribute_observers total_weight observed_class_distribution []
    some (votes.map (fun p => (p.1, Real.exp (p.2 - nbLse votes))))

/-! ### Alternating label lists (used to state the balancing invariant) -/

/-- The strictly alternating label list of length `n` accepted by the
balancing loop from toggle state `t`: the next accepted label is `0`
when `_next_class_should_be_zero` is set and `1` otherwise. -/
def altFrom : Bool → ℕ → List ℕ
  | _, 0 => []
  | t, n + 1 => (if t then 0 else 1) :: altFrom (!t) n

/-! ### Helper lemmas: perturbation -/

theorem perturbValue_mem (pert u val vmin vmax : ℚ) (vrange : Option ℚ)
    (h : vmin ≤ vmax) :
    vmin ≤ perturbValue pert u val vmin vmax vrange ∧
      perturbValue pert u val vmin vmax vrange ≤ vmax := by
  unfold perturbValue
  dsimp only
  split_ifs with h1 h2
  · exact ⟨le_refl _, h⟩
  · exact ⟨h, le_refl _⟩
  · push_neg at h1 h2
    exact ⟨h1, h2⟩

/-- With an inverted clamp (`0 < vmin`, `vmax = 0`) — the `hvalue`
call — `_perturb_value` can only return `vmin` or `0`. -/
theorem perturbValue_inverted (pert u val vmin : ℚ) (vrange : Option ℚ)
    (h : 0 < vmin) :
    perturbValue pert u val vmin 0 vrange = vmin ∨
      perturbValue pert u val vmin 0 vrange = 0 := by
  unfold perturbValue
  dsimp only
  split_ifs with h1 h2
  · exact Or.inl rfl
  · exact Or.inr rfl
  · exfalso
    push_neg at h1 h2
    linarith

theorem npRound_bounds (q : ℚ) :
    q - 1/2 ≤ (npRound q : ℚ) ∧ (npRound q : ℚ) ≤ q + 1/2 := by
  have h1 : (⌊q⌋ : ℚ) ≤ q := Int.floor_le q
  have h2 : q < ⌊q⌋ + 1 := Int.lt_floor_add_one q
  unfold npRound
  dsimp only
  split_ifs <;> constructor <;> push_cast <;> linarith

theorem npRound_mem (q : ℚ) (lo hi : ℤ) (hlo : (lo : ℚ) ≤ q) (hhi : q ≤ (hi : ℚ)) :
    (lo : ℚ) ≤ (npRound q : ℚ) ∧ (npRound q : ℚ) ≤ (hi : ℚ) := by
  obtain ⟨h1, h2⟩ := npRound_bounds q
  constructor
  · have h3 : (2 * lo - 1 : ℚ) ≤ ((2 * npRound q : ℤ) : ℚ) := by push_cast; linarith
    have h4 : (2 * lo - 1 : ℤ) ≤ 2 * npRound q := by exact_mod_cast h3
    have h5 : lo ≤ npRound q := by omega
    exact_mod_cast h5
  · have h3 : ((2 * npRound q : ℤ) : ℚ) ≤ (2 * hi + 1 : ℚ) := by push_cast; linarith
    have h4 : (2 * npRound q : ℤ) ≤ 2 * hi + 1 := by exact_mod_cast h3
    have h5 : npRound q ≤ hi := by omega
    exact_mod_cast h5

/-! ### Helper lemmas: raw draws -/

theorem rawDraw_ranges (r : RNG) (hv : r.valid) :
    20000 ≤ ((rawDraw r).1).salary ∧ ((rawDraw r).1).salary < 150000 ∧
    20 ≤ ((rawDraw r).1).age ∧ ((rawDraw r).1).age ≤ 80 ∧
    0 ≤ ((rawDraw r).1).elevel ∧ ((rawDraw r).1).elevel < 5 ∧
    0 ≤ ((rawDraw r).1).car ∧ ((rawDraw r).1).car < 20 ∧
    0 ≤ ((rawDraw r).1).zipcode ∧ ((rawDraw r).1).zipcode < 9 ∧
    1 ≤ ((rawDraw r).1).hyears ∧ ((rawDraw r).1).hyears ≤ 30 ∧
    0 ≤ ((rawDraw r).1).loan ∧ ((rawDraw r).1).loan < 500000 ∧
    (75000 ≤ ((rawDraw r).1).salary → ((rawDraw r).1).commission = 0) ∧
    (((rawDraw r).1).salary < 75000 →
      10000 ≤ ((rawDraw r).1).commission ∧ ((rawDraw r).1).commission < 85000) := by
  have hage : ∀ k : ℕ, 20 ≤ (20 + k % 61 : ℕ) ∧ (20 + k % 61 : ℕ) ≤ 80 := by
    intro k; omega
  have hyrs : ∀ k : ℕ, 1 ≤ (1 + k % 30 : ℕ) ∧ (1 + k % 30 : ℕ) ≤ 30 := by
    intro k; omega
  unfold rawDraw RNG.rand RNG.randint
  dsimp only
  split_ifs with h
  all_goals
    dsimp only
    refine ⟨by nlinarith [(hv r.pos).1], by nlinarith [(hv r.pos).2],
      by exact_mod_cast (hage _).1, by exact_mod_cast (hage _).2,
      by exact_mod_cast Nat.zero_le _, by exact_mod_cast Nat.mod_lt _ (by norm_num : 0 < 5),
      by exact_mod_cast Nat.zero_le _, by exact_mod_cast Nat.mod_lt _ (by norm_num : 0 < 20),
      by exact_mod_cast Nat.zero_le _, by exact_mod_cast Nat.mod_lt _ (by norm_num : 0 < 9),
      by exact_mod_cast (hyrs _).1, by exact_mod_cast (hyrs _).2,
      ?_, ?_, ?_, ?_⟩
  -- salary >= 75000 branch (loan drawn at position pos + 7)
  · nlinarith [(hv (r.pos + 1 + 1 + 1 + 1 + 1 + 1 + 1)).1]
  · nlinarith [(hv (r.pos + 1 + 1 + 1 + 1 + 1 + 1 + 1)).2]
  · intro _; rfl
  · intro hc; exfalso; linarith
  -- salary < 75000 branch (commission at pos + 1, loan at pos + 8)
  · nlinarith [(hv (r.pos + 1 + 1 + 1 + 1 + 1 + 1 + 1 + 1)).1]
  · nlinarith [(hv (r.pos + 1 + 1 + 1 + 1 + 1 + 1 + 1 + 1)).2]
  · intro hc; exfalso; linarith
  · intro _
    constructor
    · linarith [(hv (r.pos + 1)).1]
    · linarith [(hv (r.pos + 1)).2]

/-! ### Claim theorems: raw field ranges and classification function 4 -/

/-- C7: for every seed (any valid generator state), each raw draw has
`salary ∈ [20000, 150000)`, `age ∈ [20, 80]`, `elevel ∈ [0, 5)`,
`car ∈ [0, 20)`, `zipcode ∈ [0, 9)`, `hyears ∈ [1, 30]`,
`loan ∈ [0, 500000)`, and `commission = 0` when `salary ≥ 75000`,
otherwise `commission ∈ [10000, 85000)`. -/
theorem rawDraw_field_ranges (r : RNG) (hv : r.valid) :
    (20000 ≤ ((rawDraw r).1).salary ∧ ((rawDraw r).1).salary < 150000) ∧
    (20 ≤ ((rawDraw r).1).age ∧ ((rawDraw r).1).age ≤ 80) ∧
    (0 ≤ ((rawDraw r).1).elevel ∧ ((rawDraw r).1).elevel < 5) ∧
    (0 ≤ ((rawDraw r).1).car ∧ ((rawDraw r).1).car < 20) ∧
    (0 ≤ ((rawDraw r).1).zipcode ∧ ((rawDraw r).1).zipcode < 9) ∧
    (1 ≤ ((rawDraw r).1).hyears ∧ ((rawDraw r).1).hyears ≤ 30) ∧
    (0 ≤ ((rawDraw r).1).loan ∧ ((rawDraw r).1).loan < 500000) ∧
    (75000 ≤ ((rawDraw r).1).salary → ((rawDraw r).1).commission = 0) ∧
    (((rawDraw r).1).salary < 75000 →
      10000 ≤ ((rawDraw r).1).commission ∧ ((rawDraw r).1).commission < 85000) := by
  obtain ⟨a, b, c, d, e, f, g, h1, i, j, k, l, m, n, o, p⟩ := rawDraw_ranges r hv
  exact ⟨⟨a, b⟩, ⟨c, d⟩, ⟨e, f⟩, ⟨g, h1⟩, ⟨i, j⟩, ⟨k, l⟩, ⟨m, n⟩, o, p⟩

/-- Witness for C7 at the generator whose draws are all zero. -/
theorem rawDraw_field_ranges_witness :
    RNG.valid ⟨fun _ => 0, fun _ => 0, 0⟩ ∧
      (20000 ≤ ((rawDraw ⟨fun _ => 0, fun _ => 0, 0⟩).1).salary ∧
        ((rawDraw ⟨fun _ => 0, fun _ => 0, 0⟩).1).salary < 150000) :=
  ⟨fun _ => by norm_num,
    (rawDraw_field_ranges ⟨fun _ => 0, fun _ => 0, 0⟩ (fun _ => by norm_num)).1⟩

/-- C6: in the `40 ≤ age < 60` bracket, classification function 4
returns `0` whenever `salary < 200000`, whatever `loan` is; in
particular every raw draw in that bracket (whose salary is below
150000) is labelled `0` by function 4. -/
theorem classificationFunction4_middle_age_low_salary :
    (∀ salary commission age elevel car zipcode hvalue hyears loan : ℚ,
      40 ≤ age → age < 60 → salary < 200000 →
      classificationFunction4 salary commission age elevel car zipcode hvalue hyears loan = 0) ∧
    (∀ r : RNG, r.valid → 40 ≤ ((rawDraw r).1).age → ((rawDraw r).1).age < 60 →
      classify 4 (rawDraw r).1 = 0) := by
  have core : ∀ salary commission age elevel car zipcode hvalue hyears loan : ℚ,
      40 ≤ age → age < 60 → salary < 200000 →
      classificationFunction4 salary commission age elevel car zipcode hvalue hyears loan = 0 := by
    intro salary commission age elevel car zipcode hvalue hyears loan h40 h60 hsal
    unfold classificationFunction4
    rw [if_neg (by linarith : ¬ age < 40), if_pos h60]
    split_ifs with h1 h2 h3
    · exact absurd h2.1 (by linarith)
    · rfl
    · exact absurd h3.1 (by linarith)
    · rfl
  refine ⟨core, ?_⟩
  intro r hv h40 h60
  have hs := (rawDraw_ranges r hv).2.1
  show classificationFunction4 ((rawDraw r).1).salary ((rawDraw r).1).commission
    ((rawDraw r).1).age ((rawDraw r).1).elevel ((rawDraw r).1).car
    ((rawDraw r).1).zipcode ((rawDraw r).1).hvalue ((rawDraw r).1).hyears
    ((rawDraw r).1).loan = 0
  exact core ((rawDraw r).1).salary ((rawDraw r).1).commission ((rawDraw r).1).age
    ((rawDraw r).1).elevel ((rawDraw r).1).car ((rawDraw r).1).zipcode
    ((rawDraw r).1).hvalue ((rawDraw r).1).hyears ((rawDraw r).1).loan
    h40 h60 (by linarith)

/-- Witness for C6 at a concrete middle-aged, low-salary input. -/
theorem classificationFunction4_middle_age_low_salary_witness :
    ((40 : ℚ) ≤ 50 ∧ (50 : ℚ) < 60 ∧ (100000 : ℚ) < 200000) ∧
      classificationFunction4 100000 0 50 0 0 0 0 0 0 = 0 :=
  ⟨by norm_num, classificationFunction4_middle_age_low_salary.1
    100000 0 50 0 0 0 0 0 0 (by norm_num) (by norm_num) (by norm_num)⟩

/-- C10: constructor validation fails exactly when the
classification-function index lies outside `0..9` or the perturbation
magnitude lies outside `[0, 1]`; the first failing check wins, and a
valid pair of parameters is accepted. -/
theorem agrawalInit_error_iff (cf : ℤ) (pert : ℚ) :
    (∃ e, agrawalInit cf pert = Except.error e) ↔
      (cf < 0 ∨ 9 < cf) ∨ (pert < 0 ∨ 1 < pert) := by
  have step : (∃ e, agrawalInit cf pert = Except.error e) ↔
      (¬ (0 ≤ cf ∧ cf < 10) ∨ ¬ (0 ≤ pert ∧ pert ≤ 1)) := by
    by_cases h1 : 0 ≤ cf ∧ cf < 10
    · by_cases h2 : 0 ≤ pert ∧ pert ≤ 1
      · simp [agrawalInit, h1, h2]
      · simp [agrawalInit, h1, h2]
    · simp [agrawalInit, h1]
  rw [step]
  constructor
  · rintro (h | h)
    · left; omega
    · right
      rcases lt_or_le pert 0 with hp | hp
      · exact Or.inl hp
      · right
        by_contra hc
        push_neg at hc
        exact h ⟨hp, hc⟩
  · rintro (h | h)
    · left; omega
    · right
      rintro ⟨h0, h1⟩
      rcases h with h | h <;> linarith

/-! ### Claim theorems: perturbation -/

/-- C1 (amended): with positive perturbation, the noised `salary`,
`commission` (touched only when positive), `age`, `hyears` and `loan`
are clamped into their fields' valid ranges, but `hvalue` — whose
`_perturb_value` call passes `val_min = (9 - zipcode) * 100000` and
`val_max = 0`, an empty interval — ends up equal to either
`(9 - zipcode) * 100000` or `0`, not inside its nominal
zipcode-dependent range. -/
theorem perturbSample_field_ranges (pert : ℚ) (s : Sample) (r : RNG)
    (hpert : 0 < pert) (hz : 0 ≤ s.zipcode ∧ s.zipcode ≤ 8) :
    (20000 ≤ ((perturbSample pert s r).1).salary ∧
      ((perturbSample pert s r).1).salary ≤ 150000) ∧
    (0 < s.commission → 10000 ≤ ((perturbSample pert s r).1).commission ∧
      ((perturbSample pert s r).1).commission ≤ 75000) ∧
    (¬ 0 < s.commission → ((perturbSample pert s r).1).commission = s.commission) ∧
    (20 ≤ ((perturbSample pert s r).1).age ∧ ((perturbSample pert s r).1).age ≤ 80) ∧
    (1 ≤ ((perturbSample pert s r).1).hyears ∧ ((perturbSample pert s r).1).hyears ≤ 30) ∧
    (0 ≤ ((perturbSample pert s r).1).loan ∧ ((perturbSample pert s r).1).loan ≤ 500000) ∧
    (((perturbSample pert s r).1).hvalue = (9 - s.zipcode) * 100000 ∨
      ((perturbSample pert s r).1).hvalue = 0) := by
  have hageb : ∀ u : ℚ, 20 ≤ ((npRound (perturbValue pert u s.age 20 80 none) : ℤ) : ℚ) ∧
      ((npRound (perturbValue pert u s.age 20 80 none) : ℤ) : ℚ) ≤ 80 := by
    intro u
    have hq := perturbValue_mem pert u s.age 20 80 none (by norm_num)
    have h2 := npRound_mem (perturbValue pert u s.age 20 80 none) 20 80
      (by exact_mod_cast hq.1) (by exact_mod_cast hq.2)
    exact ⟨by exact_mod_cast h2.1, by exact_mod_cast h2.2⟩
  have hyrb : ∀ u : ℚ, 1 ≤ ((npRound (perturbValue pert u s.hyears 1 30 none) : ℤ) : ℚ) ∧
      ((npRound (perturbValue pert u s.hyears 1 30 none) : ℤ) : ℚ) ≤ 30 := by
    intro u
    have hq := perturbValue_mem pert u s.hyears 1 30 none (by norm_num)
    have h2 := npRound_mem (perturbValue pert u s.hyears 1 30 none) 1 30
      (by exact_mod_cast hq.1) (by exact_mod_cast hq.2)
    exact ⟨by exact_mod_cast h2.1, by exact_mod_cast h2.2⟩
  have hhv : ∀ u : ℚ, perturbValue pert u s.hvalue ((9 - s.zipcode) * 100000) 0 (some 135000) =
      (9 - s.zipcode) * 100000 ∨
      perturbValue pert u s.hvalue ((9 - s.zipcode) * 100000) 0 (some 135000) = 0 := by
    intro u
    exact perturbValue_inverted pert u s.hvalue _ _ (by nlinarith [hz.2])
  unfold perturbSample RNG.rand
  dsimp only
  split_ifs with hc
  all_goals
    dsimp only
    refine ⟨⟨(perturbValue_mem _ _ _ _ _ _ (by norm_num)).1,
      (perturbValue_mem _ _ _ _ _ _ (by norm_num)).2⟩, ?_, ?_,
      ⟨(hageb _).1, (hageb _).2⟩, ⟨(hyrb _).1, (hyrb _).2⟩,
      ⟨(perturbValue_mem _ _ _ _ _ _ (by norm_num)).1,
        (perturbValue_mem _ _ _ _ _ _ (by norm_num)).2⟩, hhv _⟩
  · intro _
    exact ⟨(perturbValue_mem _ _ _ _ _ _ (by norm_num)).1,
      (perturbValue_mem _ _ _ _ _ _ (by norm_num)).2⟩
  · intro hnc; exact absurd hc hnc
  · intro hcpos; exact absurd hcpos hc
  · intro _; rfl

/-- Witness for the amended C1 at a concrete sample and generator. -/
theorem perturbSample_field_ranges_witness :
    ((0 : ℚ) < 1/10 ∧ (0 : ℚ) ≤ (Sample.mk 50000 20000 30 0 0 0 450000 10 1000).zipcode ∧
      (Sample.mk 50000 20000 30 0 0 0 450000 10 1000).zipcode ≤ 8) ∧
    (((perturbSample (1/10) (Sample.mk 50000 20000 30 0 0 0 450000 10 1000)
        ⟨fun _ => 0, fun _ => 0, 0⟩).1).hvalue =
      (9 - (Sample.mk 50000 20000 30 0 0 0 450000 10 1000).zipcode) * 100000 ∨
      ((perturbSample (1/10) (Sample.mk 50000 20000 30 0 0 0 450000 10 1000)
        ⟨fun _ => 0, fun _ => 0, 0⟩).1).hvalue = 0) :=
  ⟨⟨by norm_num, by norm_num, by norm_num⟩,
    (perturbSample_field_ranges (1/10) (Sample.mk 50000 20000 30 0 0 0 450000 10 1000)
      ⟨fun _ => 0, fun _ => 0, 0⟩ (by norm_num) ⟨by norm_num, by norm_num⟩).2.2.2.2.2.2⟩

/-- C1 counterexample: a concrete run with perturbation `1/10` whose
raw draw has `zipcode = 0` and `hvalue = 900000`; after the noise step
`hvalue` is `0`, strictly below the lower endpoint
`(9 - zipcode) * 100000 * (1/2)` of its valid zipcode-dependent
generation range (and below the `val_min` passed to the clamp), so the
perturbed `hvalue` is not clamped back into that range. -/
theorem perturb_hvalue_escapes_range :
    ((perturbSample (1/10) (rawDraw ⟨fun _ => 1/2, fun _ => 0, 0⟩).1
        (rawDraw ⟨fun _ => 1/2, fun _ => 0, 0⟩).2).1).hvalue = 0 ∧
    ((rawDraw ⟨fun _ => 1/2, fun _ => 0, 0⟩).1).zipcode = 0 ∧
    ((rawDraw ⟨fun _ => 1/2, fun _ => 0, 0⟩).1).hvalue = 900000 ∧
    ¬ ((9 - ((rawDraw ⟨fun _ => 1/2, fun _ => 0, 0⟩).1).zipcode) * 100000 * (1/2) ≤
        ((perturbSample (1/10) (rawDraw ⟨fun _ => 1/2, fun _ => 0, 0⟩).1
          (rawDraw ⟨fun _ => 1/2, fun _ => 0, 0⟩).2).1).hvalue) := by
  norm_num [rawDraw, perturbSample, perturbValue, RNG.rand, RNG.randint]

/-! ### Claim theorems: drift injection -/

/-- C8: as soon as the `randint(10)` stream offers, within the
available fuel, one draw different from the current index, the drift
loop terminates with a new index in `0..9` different from the old one;
the generator's oracle streams are untouched and its position only
advances, so the operation can be repeated. -/
theorem generateDrift_spec (fuel : ℕ) (r : RNG) (cur : ℕ)
    (h : ∃ k, k < fuel ∧ r.nats (r.pos + k) % 10 ≠ cur) :
    ∃ v r2, generateDriftFuel fuel r cur = some (v, r2) ∧
      v < 10 ∧ v ≠ cur ∧ r2.reals = r.reals ∧ r2.nats = r.nats ∧ r.pos < r2.pos := by
  induction fuel generalizing r with
  | zero =>
    obtain ⟨k, hk, _⟩ := h
    exact absurd hk (by omega)
  | succ fuel ih =>
    simp only [generateDriftFuel, RNG.randint]
    by_cases heq : r.nats r.pos % 10 = cur
    · rw [if_pos heq]
      have h2 : ∃ k, k < fuel ∧
          (RNG.mk r.reals r.nats (r.pos + 1)).nats
            ((RNG.mk r.reals r.nats (r.pos + 1)).pos + k) % 10 ≠ cur := by
        obtain ⟨k, hk, hne⟩ := h
        rcases k with _ | k
        · exact absurd heq (by simpa using hne)
        · refine ⟨k, by omega, ?_⟩
          have e : (RNG.mk r.reals r.nats (r.pos + 1)).pos + k = r.pos + (k + 1) := by
            dsimp; omega
          rw [e]
          exact hne
      obtain ⟨v, r2, he, h10, hvne, hr, hn, hp⟩ := ih _ h2
      exact ⟨v, r2, he, h10, hvne, hr, hn, by dsimp at hp; omega⟩
    · rw [if_neg heq]
      exact ⟨r.nats r.pos % 10, RNG.mk r.reals r.nats (r.pos + 1), rfl,
        Nat.mod_lt _ (by norm_num), heq, rfl, rfl, by dsimp; omega⟩

/-- Witness for C8: current index `0`, a stream producing `0, 1, 2, …`:
the second draw already differs. -/
theorem generateDrift_spec_witness :
    (∃ k, k < 2 ∧ (RNG.mk (fun _ => 0) (fun i => i) 0).nats
        ((RNG.mk (fun _ => 0) (fun i => i) 0).pos + k) % 10 ≠ 0) ∧
    (∃ v r2, generateDriftFuel 2 (RNG.mk (fun _ => 0) (fun i => i) 0) 0 = some (v, r2) ∧
      v < 10 ∧ v ≠ 0 ∧ r2.reals = (RNG.mk (fun _ => 0) (fun i => i) 0).reals ∧
      r2.nats = (RNG.mk (fun _ => 0) (fun i => i) 0).nats ∧
      (RNG.mk (fun _ => 0) (fun i => i) 0).pos < r2.pos) :=
  ⟨⟨1, by norm_num⟩,
    generateDrift_spec 2 (RNG.mk (fun _ => 0) (fun i => i) 0) 0 ⟨1, by norm_num⟩⟩

/-! ### Helper lemmas: class balancing -/

theorem balanceRun_false (t : Bool) (gs : List ℕ) : balanceRun false t gs = (gs, t) := by
  induction gs generalizing t with
  | nil => rfl
  | cons g gs ih => simp [balanceRun, ih]

theorem acceptCheck_eq (t : Bool) (g : ℕ) (h : acceptCheck t g = true) :
    g = if t then 0 else 1 := by
  cases t <;> simp [acceptCheck] at h <;> simp [h]

theorem balanceRun_true_spec (gs : List ℕ) : ∀ t : Bool,
    (balanceRun true t gs).1 = altFrom t ((balanceRun true t gs).1).length ∧
    (balanceRun true t gs).2 =
      (if ((balanceRun true t gs).1).length % 2 = 0 then t else !t) := by
  induction gs with
  | nil => intro t; simp [balanceRun, altFrom]
  | cons g gs ih =>
    intro t
    simp only [balanceRun, if_true]
    by_cases hacc : acceptCheck t g = true
    · rw [if_pos hacc]
      have hg := acceptCheck_eq t g hacc
      obtain ⟨ih1, ih2⟩ := ih (!t)
      dsimp only
      constructor
      · rw [List.length_cons]
        show g :: (balanceRun true (!t) gs).1 =
          (if t then 0 else 1) :: altFrom (!t) ((balanceRun true (!t) gs).1).length
        rw [← hg, ← ih1]
      · rw [List.length_cons, ih2]
        by_cases hp : ((balanceRun true (!t) gs).1).length % 2 = 0
        · rw [if_pos hp, if_neg (by omega)]
        · rw [if_neg hp, if_pos (by omega), Bool.not_not]
    · rw [if_neg hacc]
      exact ih t

theorem altFrom_drop (a : ℕ) : ∀ (t : Bool) (n : ℕ),
    ∃ t', (altFrom t n).drop a = altFrom t' (n - a) := by
  induction a with
  | zero => intro t n; exact ⟨t, by simp⟩
  | succ a ih =>
    intro t n
    cases n with
    | zero => exact ⟨t, by simp [altFrom]⟩
    | succ n =>
      obtain ⟨t', hd⟩ := ih (!t) n
      exact ⟨t', by simpa [altFrom] using hd⟩

theorem altFrom_take (N : ℕ) : ∀ (t : Bool) (n : ℕ),
    (altFrom t n).take N = altFrom t (min N n) := by
  induction N with
  | zero => intro t n; simp [altFrom]
  | succ N ih =>
    intro t n
    cases n with
    | zero => simp [altFrom]
    | succ n =>
      simp only [altFrom, List.take_succ_cons, ih, Nat.succ_min_succ]

theorem altFrom_counts (n : ℕ) : ∀ t : Bool,
    (altFrom t n).count 1 = (if t then n / 2 else (n + 1) / 2) ∧
    (altFrom t n).count 0 = (if t then (n + 1) / 2 else n / 2) := by
  induction n with
  | zero => intro t; cases t <;> simp [altFrom]
  | succ n ih =>
    intro t
    obtain ⟨h1, h0⟩ := ih (!t)
    cases t <;> simp_all [altFrom, List.count_cons] <;> omega

theorem altFrom_count_diff (t : Bool) (n : ℕ) :
    (altFrom t n).count 0 ≤ (altFrom t n).count 1 + 1 ∧
    (altFrom t n).count 1 ≤ (altFrom t n).count 0 + 1 := by
  obtain ⟨h1, h0⟩ := altFrom_counts n t
  cases t <;> simp_all <;> omega

/-- C2: with balancing off every candidate label is accepted in order
and the toggle never changes; with balancing on the accepted labels
form the strictly alternating sequence determined by the toggle (so
each acceptance flips it, as the final toggle value records), and over
any `N ≥ 2` consecutive accepted samples — any window of the accepted
sequence, for any classification function — the counts of labels `0`
and `1` differ by at most `1`. -/
theorem balance_classes_alternation :
    (∀ (t : Bool) (gs : List ℕ), balanceRun false t gs = (gs, t)) ∧
    (∀ (t : Bool) (gs : List ℕ),
      (balanceRun true t gs).1 = altFrom t ((balanceRun true t gs).1).length ∧
      (balanceRun true t gs).2 =
        (if ((balanceRun true t gs).1).length % 2 = 0 then t else !t)) ∧
    (∀ (cf : Fin 10) (samples : List Sample) (a N : ℕ), 2 ≤ N →
      (((balanceRun true false (samples.map (classify cf))).1.drop a).take N).count 0 ≤
        (((balanceRun true false (samples.map (classify cf))).1.drop a).take N).count 1 + 1 ∧
      (((balanceRun true false (samples.map (classify cf))).1.drop a).take N).count 1 ≤
        (((balanceRun true false (samples.map (classify cf))).1.drop a).take N).count 0 + 1) := by
  refine ⟨balanceRun_false, fun t gs => balanceRun_true_spec gs t, ?_⟩
  intro cf samples a N _
  obtain ⟨hfst, _⟩ := balanceRun_true_spec (samples.map (classify cf)) false
  rw [hfst]
  obtain ⟨t', hdrop⟩ := altFrom_drop a false _
  rw [hdrop, altFrom_take]
  exact altFrom_count_diff t' _

/-- Witness for C2 with classification function 0, one concrete raw
sample and a window of size 2. -/
theorem balance_classes_alternation_witness :
    2 ≤ 2 ∧
    ((((balanceRun true false
        ([Sample.mk 50000 20000 30 0 0 0 450000 10 1000].map (classify 0))).1.drop 0).take 2).count 0 ≤
      (((balanceRun true false
        ([Sample.mk 50000 20000 30 0 0 0 450000 10 1000].map (classify 0))).1.drop 0).take 2).count 1 + 1 ∧
      (((balanceRun true false
        ([Sample.mk 50000 20000 30 0 0 0 450000 10 1000].map (classify 0))).1.drop 0).take 2).count 1 ≤
      (((balanceRun true false
        ([Sample.mk 50000 20000 30 0 0 0 450000 10 1000].map (classify 0))).1.drop 0).take 2).count 0 + 1) :=
  ⟨by norm_num, balance_classes_alternation.2.2 0
    [Sample.mk 50000 20000 30 0 0 0 450000 10 1000] 0 2 (by norm_num)⟩

/-! ### Helper lemmas: naive Bayes -/

open scoped Classical in
theorem likelihoodSum_aux (x : List (ℕ × ℝ)) (c : ℕ) (obs : List (ℕ × Obs)) :
    ∀ init : ℝ,
    obs.foldl (fun acc p =>
      match List.lookup p.1 x with
      | none => acc
      | some v =>
        let tmp := p.2 v c
        acc + (if tmp > 0 then Real.log tmp else 0)) init =
    init + (obs.map (fun p =>
      match List.lookup p.1 x with
      | none => (0 : ℝ)
      | some v => if p.2 v c > 0 then Real.log (p.2 v c) else 0)).sum := by
  induction obs with
  | nil => intro init; simp
  | cons p rest ih =>
    intro init
    simp only [List.foldl_cons, List.map_cons, List.sum_cons]
    cases hl : List.lookup p.1 x with
    | none =>
      simp only [hl, ih]
      ring
    | some v =>
      simp only [hl, ih]
      ring

open scoped Classical in
theorem likelihoodSum_eq (x : List (ℕ × ℝ)) (obs : List (ℕ × Obs)) (c : ℕ) :
    likelihoodSum x obs c =
      (obs.map (fun p =>
        match List.lookup p.1 x with
        | none => (0 : ℝ)
        | some v => if p.2 v c > 0 then Real.log (p.2 v c) else 0)).sum := by
  unfold likelihoodSum
  rw [likelihoodSum_aux]
  ring

open scoped Classical in
theorem nbVotesLoop_eq (x : List (ℕ × ℝ)) (obs : List (ℕ × Obs)) (total : ℝ) :
    ∀ (dist acc : List (ℕ × ℝ)),
    nbVotesLoop x obs total dist acc =
      acc ++ dist.map (fun p =>
        (p.1, if p.2 > 0 then Real.log (p.2 / total) + likelihoodSum x obs p.1 else 0)) := by
  intro dist
  induction dist with
  | nil => intro acc; simp [nbVotesLoop]
  | cons p rest ih =>
    intro acc
    obtain ⟨c, w⟩ := p
    by_cases hw : w > 0
    · rw [nbVotesLoop, if_pos hw, ih]
      simp [hw]
    · rw [nbVotesLoop, if_neg hw, ih]
      simp [hw]

theorem list_sum_map_div (l : List (ℕ × ℝ)) (f : ℕ × ℝ → ℝ) (c : ℝ) :
    (l.map (fun p => f p / c)).sum = (l.map f).sum / c := by
  induction l with
  | nil => simp
  | cons p rest ih => simp [ih, add_div]

theorem expSum_pos (votes : List (ℕ × ℝ)) (hne : votes ≠ []) :
    0 < ((votes.map (fun p => Real.exp p.2)).sum) := by
  apply List.sum_pos
  · intro a ha
    obtain ⟨p, _, rfl⟩ := List.mem_map.mp ha
    exact Real.exp_pos _
  · simpa using hne

theorem nbLse_eq_log_sum (votes : List (ℕ × ℝ)) (hne : votes ≠ []) :
    nbLse votes = Real.log ((votes.map (fun p => Real.exp p.2)).sum) := by
  match votes with
  | v :: vs =>
    show ((vs.map Prod.snd).foldl max v.2) +
        Real.log (((v :: vs).map
          (fun p => Real.exp (p.2 - (vs.map Prod.snd).foldl max v.2))).sum) = _
    set M := (vs.map Prod.snd).foldl max v.2 with hM
    have hrw : ((v :: vs).map (fun p => Real.exp (p.2 - M))) =
        ((v :: vs).map (fun p => Real.exp p.2 / Real.exp M)) :=
      List.map_congr_left (fun p _ => Real.exp_sub _ _)
    have hpos : 0 < (((v :: vs).map (fun p => Real.exp p.2)).sum) :=
      expSum_pos _ (by simp)
    rw [hrw, list_sum_map_div, div_eq_mul_inv,
      Real.log_mul (ne_of_gt hpos) (inv_ne_zero (Real.exp_ne_zero M)),
      Real.log_inv, Real.log_exp]
    ring

/-! ### Claim theorems: naive Bayes -/

open scoped Classical in
/-- C4: whenever the prior mapping is non-empty with nonzero total
weight, the returned posterior has exactly the class indices of the
prior (in order), every value lies in `[0, 1]`, and the values sum to
`1` in exact real arithmetic. -/
theorem do_naive_bayes_prediction_distribution (x : List (ℕ × ℝ))
    (dist : List (ℕ × ℝ)) (obs : List (ℕ × Obs))
    (hne : dist ≠ []) (hw : (dist.map Prod.snd).sum ≠ 0) :
    ∃ res, do_naive_bayes_prediction x dist obs = some res ∧
      res.map Prod.fst = dist.map Prod.fst ∧
      (∀ p ∈ res, 0 ≤ p.2 ∧ p.2 ≤ 1) ∧
      (res.map Prod.snd).sum = 1 := by
  unfold do_naive_bayes_prediction
  rw [if_neg (by simp [hne, hw])]
  set total := (dist.map Prod.snd).sum with htot
  set votes := nbVotesLoop x obs total dist [] with hv
  have hvm : votes = dist.map (fun p =>
      (p.1, if p.2 > 0 then Real.log (p.2 / total) + likelihoodSum x obs p.1 else 0)) := by
    rw [hv, nbVotesLoop_eq]
    simp
  have hvne : votes ≠ [] := by
    rw [hvm]
    simpa using hne
  set S := ((votes.map (fun p => Real.exp p.2)).sum) with hS
  have hpos : 0 < S := expSum_pos votes hvne
  have hlse : nbLse votes = Real.log S := nbLse_eq_log_sum votes hvne
  have hval : ∀ p : ℕ × ℝ, Real.exp (p.2 - nbLse votes) = Real.exp p.2 / S := by
    intro p
    rw [hlse, Real.exp_sub, Real.exp_log hpos]
  refine ⟨_, rfl, ?_, ?_, ?_⟩
  · rw [List.map_map, hvm, List.map_map]
    rfl
  · intro p hp
    obtain ⟨q, hq, rfl⟩ := List.mem_map.mp hp
    dsimp only
    rw [hval q]
    have hmem : Real.exp q.2 ∈ votes.map (fun p => Real.exp p.2) :=
      List.mem_map.mpr ⟨q, hq, rfl⟩
    have hnn : ∀ a ∈ votes.map (fun p => Real.exp p.2), 0 ≤ a := by
      intro a ha
      obtain ⟨p2, _, rfl⟩ := List.mem_map.mp ha
      exact (Real.exp_pos _).le
    have hle : Real.exp q.2 ≤ S := by
      rw [hS]
      exact List.single_le_sum hnn _ hmem
    constructor
    · positivity
    · rw [div_le_one hpos]
      exact hle
  · rw [List.map_map]
    have : (Prod.snd ∘ fun p : ℕ × ℝ => (p.1, Real.exp (p.2 - nbLse votes))) =
        fun p : ℕ × ℝ => Real.exp p.2 / S := by
      funext p
      exact hval p
    rw [this, list_sum_map_div, ← hS, div_self (ne_of_gt hpos)]

/-- Witness for C4 at the prior `{0: 3, 1: 1}` with no observers. -/
theorem do_naive_bayes_prediction_distribution_witness :
    (([(0, (3 : ℝ)), (1, 1)] : List (ℕ × ℝ)) ≠ [] ∧
      (([(0, (3 : ℝ)), (1, 1)] : List (ℕ × ℝ)).map Prod.snd).sum ≠ 0) ∧
    (∃ res, do_naive_bayes_prediction [] [(0, (3 : ℝ)), (1, 1)] [] = some res ∧
      res.map Prod.fst = ([(0, (3 : ℝ)), (1, 1)] : List (ℕ × ℝ)).map Prod.fst ∧
      (∀ p ∈ res, 0 ≤ p.2 ∧ p.2 ≤ 1) ∧
      (res.map Prod.snd).sum = 1) :=
  ⟨⟨by simp, by norm_num⟩,
    do_naive_bayes_prediction_distribution [] [(0, (3 : ℝ)), (1, 1)] []
      (by simp) (by norm_num)⟩

open scoped Classical in
/-- C5: the estimator returns `none` exactly when the prior mapping is
empty or its total weight is zero; in particular the prior `{0: 0}`
with no observers yields `none`. -/
theorem do_naive_bayes_prediction_none_iff (x : List (ℕ × ℝ))
    (dist : List (ℕ × ℝ)) (obs : List (ℕ × Obs)) :
    (do_naive_bayes_prediction x dist obs = none ↔
      dist = [] ∨ (dist.map Prod.snd).sum = 0) ∧
    do_naive_bayes_prediction x [(0, 0)] [] = none := by
  constructor
  · unfold do_naive_bayes_prediction
    dsimp only
    split_ifs with h
    · simpa using h
    · simp [h]
  · simp [do_naive_bayes_prediction]

open scoped Classical in
/-- C3: a class whose prior weight is exactly `0` gets the literal
running score `0.0`, independently of the feature record and of the
observers (its likelihood accumulation is skipped), while a class with
positive weight is seeded with `log (w / total)` and accumulates, per
observed feature, `log p` when `p > 0` and `0.0` otherwise; the `0.0`
score of a zero-weight class still enters the final log-sum-exp
normalisation. -/
theorem nb_zero_weight_scores (x : List (ℕ × ℝ)) (dist : List (ℕ × ℝ))
    (obs : List (ℕ × Obs)) (total : ℝ) :
    (∀ c : ℕ, likelihoodSum x obs c = (obs.map (fun p =>
      match List.lookup p.1 x with
      | none => (0 : ℝ)
      | some v => if p.2 v c > 0 then Real.log (p.2 v c) else 0)).sum) ∧
    (∀ i (hi : i < dist.length), dist[i].2 = 0 →
      (nbVotesLoop x obs total dist [])[i]? = some (dist[i].1, 0) ∧
      ∀ (x2 : List (ℕ × ℝ)) (obs2 : List (ℕ × Obs)),
        (nbVotesLoop x2 obs2 total dist [])[i]? = some (dist[i].1, 0)) ∧
    (∀ i (hi : i < dist.length), 0 < dist[i].2 →
      (nbVotesLoop x obs total dist [])[i]? =
        some (dist[i].1, Real.log (dist[i].2 / total) + likelihoodSum x obs dist[i].1)) ∧
    (∀ i (hi : i < dist.length), dist[i].2 = 0 → dist ≠ [] →
      (dist.map Prod.snd).sum ≠ 0 →
      ∃ res, do_naive_bayes_prediction x dist obs = some res ∧
        res[i]? = some (dist[i].1,
          Real.exp (0 - nbLse (nbVotesLoop x obs ((dist.map Prod.snd).sum) dist [])))) := by
  have key : ∀ (t : ℝ) (x2 : List (ℕ × ℝ)) (obs2 : List (ℕ × Obs)) (i : ℕ)
      (hi : i < dist.length),
      (nbVotesLoop x2 obs2 t dist [])[i]? =
        some (dist[i].1, if dist[i].2 > 0 then
          Real.log (dist[i].2 / t) + likelihoodSum x2 obs2 dist[i].1 else 0) := by
    intro t x2 obs2 i hi
    rw [nbVotesLoop_eq, List.nil_append, List.getElem?_map,
      List.getElem?_eq_getElem hi]
    rfl
  have zeroKey : ∀ (t : ℝ) (x2 : List (ℕ × ℝ)) (obs2 : List (ℕ × Obs)) (i : ℕ)
      (hi : i < dist.length), dist[i].2 = 0 →
      (nbVotesLoop x2 obs2 t dist [])[i]? = some (dist[i].1, 0) := by
    intro t x2 obs2 i hi hz
    have k := key t x2 obs2 i hi
    rw [hz] at k
    simpa using k
  refine ⟨fun c => likelihoodSum_eq x obs c, ?_, ?_, ?_⟩
  · intro i hi hz
    exact ⟨zeroKey total x obs i hi hz, fun x2 obs2 => zeroKey total x2 obs2 i hi hz⟩
  · intro i hi hpos
    have k := key total x obs i hi
    rw [if_pos hpos] at k
    exact k
  · intro i hi hz hne hw
    unfold do_naive_bayes_prediction
    dsimp only
    rw [if_neg (by simp [hne, hw])]
    refine ⟨_, rfl, ?_⟩
    rw [List.getElem?_map, zeroKey ((dist.map Prod.snd).sum) x obs i hi hz]
    rfl

/-- Witness for C3 at the prior `{0: 0, 1: 2}`, one observer, total
weight `2`: class `0` has weight `0`. -/
theorem nb_zero_weight_scores_witness :
    ((0 : ℕ) < ([(0, (0 : ℝ)), (1, 2)] : List (ℕ × ℝ)).length ∧
      (([(0, (0 : ℝ)), (1, 2)] : List (ℕ × ℝ)).map Prod.snd).sum ≠ 0) ∧
    (nbVotesLoop [(0, (1 : ℝ))] [(0, fun _ _ => (1 : ℝ) / 2)] 2
      [(0, (0 : ℝ)), (1, 2)] [])[0]? = some (0, 0) :=
  ⟨⟨by norm_num, by norm_num⟩,
    ((nb_zero_weight_scores [(0, (1 : ℝ))] [(0, (0 : ℝ)), (1, 2)]
      [(0, fun _ _ => (1 : ℝ) / 2)] 2).2.1 0 (by norm_num) (by norm_num)).1⟩

open scoped Classical in
/-- C9: with prior `{0: 3, 1: 1}`, no observers and an empty feature
record, the estimator returns exactly `{0: 3/4, 1: 1/4}` — the
normalised prior. -/
theorem nb_pure_prior_concrete :
    do_naive_bayes_prediction [] [(0, (3 : ℝ)), (1, 1)] [] =
      some [(0, 3/4), (1, 1/4)] := by
  have hL : ∀ c, likelihoodSum [] [] c = 0 := fun _ => rfl
  unfold do_naive_bayes_prediction
  dsimp only
  rw [if_neg (by push_neg; exact ⟨by simp, by norm_num⟩)]
  have hv : nbVotesLoop [] [] ((([(0, (3 : ℝ)), (1, 1)]).map Prod.snd).sum)
      [(0, (3 : ℝ)), (1, 1)] [] =
      [(0, Real.log (3 / 4)), (1, Real.log (1 / 4))] := by
    rw [nbVotesLoop_eq]
    norm_num [hL]
  rw [hv]
  have e1 : Real.exp (Real.log (3 / 4)) = 3 / 4 :=
    Real.exp_log (by norm_num)
  have e2 : Real.exp (Real.log (1 / 4)) = 1 / 4 :=
    Real.exp_log (by norm_num)
  have hlse : nbLse [(0, Real.log (3 / 4)), (1, Real.log (1 / 4))] = 0 := by
    rw [nbLse_eq_log_sum _ (by simp)]
    simp only [List.map_cons, List.map_nil, List.sum_cons, List.sum_nil]
    rw [e1, e2]
    norm_num
  rw [hlse]
  simp only [List.map_cons, List.map_nil, sub_zero, e1, e2]
